import Mathlib

/-!
Verification of the chunk-planning core of the gis_helpers repository.

The definitions below are a shallow embedding of
src/gis_helpers/raster_chunks.py and src/gis_helpers/raster_bound.py.

Modelling conventions:
* Python integers are modelled by `Int` (arbitrary precision).
* CPython float arithmetic (the divisions in `math.ceil(width / chunk_width)`
  and in `get_memory_limited_raster_chunks`, and `math.sqrt`) is modelled by
  exact rational arithmetic over `ℚ`; `int(math.sqrt(q))` for `q ≥ 0` is the
  floor of the real square root of `q`, which equals `Int.sqrt ⌊q⌋`.
* A Python `ValueError` (the spec's `InvalidArgument`) and `AttributeError`
  are the constructors of `PyError`; code that can raise returns `Except`.
* A generator is modelled in two ways: `get_raster_chunks` is the fully
  consumed run (the validation error, or the complete list of yielded
  values), while `RasterChunksGen` / `gen_trace` / `gen_observe` model the
  suspended generator object: creating it runs no body code, and the trace
  of observable events (yields, a raised error, exhaustion) is revealed one
  event per `next` request.
-/

/-- Python exception classes that the embedded code can raise. -/
inductive PyError where
  | valueError
  | attributeError
deriving DecidableEq, Repr

instance {ε α : Type} [DecidableEq ε] [DecidableEq α] : DecidableEq (Except ε α) :=
fun x y =>
  match x, y with
  | .ok a, .ok b =>
    if h : a = b then .isTrue (by rw [h]) else .isFalse (by simp [h])
  | .ok _, .error _ => .isFalse (by simp)
  | .error _, .ok _ => .isFalse (by simp)
  | .error e, .error f =>
    if h : e = f then .isTrue (by rw [h]) else .isFalse (by simp [h])

/-- The `RasterBound` value object of src/gis_helpers/raster_bound.py:
a rectangular section of a raster in upper-left-origin pixel coordinates,
with fields `__x_off`, `__y_off`, `__x_size`, `__y_size`. -/
structure RasterBound where
  x_off : Int
  y_off : Int
  x_size : Int
  y_size : Int
deriving DecidableEq, Repr

/-- A Python object seen through the four name-mangled attributes
`_RasterBound__x_off` … `_RasterBound__y_size` that `RasterBound.__eq__`
reads from its operand; a field is `none` when the operand has no such
attribute. -/
structure PyObj where
  x_off : Option Int
  y_off : Option Int
  x_size : Option Int
  y_size : Option Int
deriving DecidableEq, Repr

/-- Attribute lookup: raises `AttributeError` when the attribute is absent. -/
def py_getattr (a : Option Int) : Except PyError Int :=
  match a with
  | some v => .ok v
  | none => .error .attributeError

/-- A `RasterBound` viewed as a Python object: all four mangled attributes
are present. -/
def RasterBound.toPyObj (r : RasterBound) : PyObj :=
  ⟨some r.x_off, some r.y_off, some r.x_size, some r.y_size⟩

/-- `RasterBound.__eq__` (raster_bound.py lines 29-36): the conjunction of
the four field comparisons, evaluated left to right with Python `and`
short-circuiting; each attribute access on the operand can raise
`AttributeError`. -/
def RasterBound.eq (self : RasterBound) (value : PyObj) : Except PyError Bool := do
  let vx ← py_getattr value.x_off
  if self.x_off = vx then do
    let vy ← py_getattr value.y_off
    if self.y_off = vy then do
      let vxs ← py_getattr value.x_size
      if self.x_size = vxs then do
        let vys ← py_getattr value.y_size
        return decide (self.y_size = vys)
      else return false
    else return false
  else return false

/-- `RasterBound.__ne__` (raster_bound.py lines 37-38):
`not self.__eq__(value)`. -/
def RasterBound.ne (self : RasterBound) (value : PyObj) : Except PyError Bool := do
  let e ← self.eq value
  return !e

/-- The set of pixels of a `RasterBound`: `(x, y)` lies in the half-open
box `[x_off, x_off + x_size) × [y_off, y_off + y_size)`. -/
def RasterBound.covers (r : RasterBound) (x y : Int) : Prop :=
  r.x_off ≤ x ∧ x < r.x_off + r.x_size ∧ r.y_off ≤ y ∧ y < r.y_off + r.y_size

instance (r : RasterBound) (x y : Int) : Decidable (r.covers x y) := by
  unfold RasterBound.covers; infer_instance

/-- `math.ceil(a / b)` for Python ints `a`, `b`: true division is modelled
by exact division in `ℚ`. -/
def math_ceil_div (a b : Int) : Int :=
  ⌈(a : ℚ) / (b : ℚ)⌉

/-- The list built by a doubly nested loop
`for c in range(a): for r in range(b): yield f c r`. -/
def double_loop (a b : Nat) (f : Nat → Nat → α) : List α :=
  (List.range a).flatMap fun c => (List.range b).map (f c)

/-- `__get_chunk_bounds` (raster_chunks.py lines 26-32): the rectangle of
the tile at chunk coordinates `(row, col)`. -/
def get_chunk_bounds (width height chunk_width chunk_height row col : Int) :
    RasterBound :=
  let x_off := col * chunk_width
  let x_size := if width - x_off > chunk_width then chunk_width else width - x_off
  let y_off := row * chunk_height
  let y_size := if height - y_off > chunk_height then chunk_height else height - y_off
  ⟨x_off, y_off, x_size, y_size⟩

/-- The complete list of rectangles yielded by the body of
`get_raster_chunks` (raster_chunks.py lines 58-64) once validation has
passed: `for col in range(0, n_cols): for row in range(0, n_rows): yield …`. -/
def raster_chunk_list (width height chunk_width chunk_height : Int) :
    List RasterBound :=
  let n_cols := math_ceil_div width chunk_width
  let n_rows := math_ceil_div height chunk_height
  (List.range n_cols.toNat).flatMap fun (col : Nat) =>
    (List.range n_rows.toNat).map fun (row : Nat) =>
      get_chunk_bounds width height chunk_width chunk_height (row : Int) (col : Int)

/-- `get_raster_chunks` (raster_chunks.py lines 35-64), fully consumed:
the validation `ValueError`, or the complete sequence of yielded
rectangles. -/
def get_raster_chunks (width height chunk_width chunk_height : Int) :
    Except PyError (List RasterBound) :=
  if width ≤ 0 ∨ height ≤ 0 ∨ chunk_width ≤ 0 ∨ chunk_height ≤ 0 then
    .error .valueError
  else
    .ok (raster_chunk_list width height chunk_width chunk_height)

/-- An event a consumer of the generator can observe on one `next` request. -/
inductive GenEvent where
  | yielded (r : RasterBound)
  | raised (e : PyError)
  | stopped
deriving DecidableEq, Repr

/-- The suspended generator object returned by calling
`get_raster_chunks(...)`: calling a Python generator function runs none of
its body, it only captures the arguments. -/
structure RasterChunksGen where
  width : Int
  height : Int
  chunk_width : Int
  chunk_height : Int
deriving DecidableEq, Repr

/-- Calling `get_raster_chunks(...)`: builds the generator object without
executing the body (so without validating). -/
def mk_raster_chunks_gen (width height chunk_width chunk_height : Int) :
    RasterChunksGen :=
  ⟨width, height, chunk_width, chunk_height⟩

/-- The full trace of events the generator produces when driven to the end:
the body validates first, so invalid arguments raise on the very first
request; otherwise every rectangle is yielded and then iteration stops. -/
def gen_trace (g : RasterChunksGen) : List GenEvent :=
  if g.width ≤ 0 ∨ g.height ≤ 0 ∨ g.chunk_width ≤ 0 ∨ g.chunk_height ≤ 0 then
    [.raised .valueError]
  else
    (raster_chunk_list g.width g.height g.chunk_width g.chunk_height).map .yielded
      ++ [.stopped]

/-- The events observed by a consumer that makes exactly `k` `next`
requests on the generator. -/
def gen_observe (g : RasterChunksGen) (k : Nat) : List GenEvent :=
  (gen_trace g).take k

/-- The ordered rectangles a consumer of the generator receives. -/
def gen_yields (g : RasterChunksGen) : List RasterBound :=
  (gen_trace g).filterMap fun e =>
    match e with
    | .yielded r => some r
    | _ => none

/-- `get_memory_limited_raster_chunks` (raster_chunks.py lines 94-102),
fully consumed.  `divisor = n_rasters * bytes_per_pixel / 1e6` and
`max_pixels = memory_limit_MB / divisor` are float computations, modelled
exactly over `ℚ`; `math.sqrt` of a negative number raises `ValueError`
(math domain error), and `int(math.sqrt(max_pixels))` is `Int.sqrt
⌊max_pixels⌋`. -/
def get_memory_limited_raster_chunks
    (n_rasters width height memory_limit_MB bytes_per_pixel : Int) :
    Except PyError (List RasterBound) :=
  let divisor : ℚ := (n_rasters : ℚ) * (bytes_per_pixel : ℚ) / 1000000
  if divisor ≤ 0 then
    .error .valueError
  else
    let max_pixels : ℚ := (memory_limit_MB : ℚ) / divisor
    if max_pixels > (width : ℚ) * (height : ℚ) then
      get_raster_chunks width height width height
    else if max_pixels < 0 then
      .error .valueError
    else
      let size := Int.sqrt ⌊max_pixels⌋
      get_raster_chunks width height size size

/-! Bridging lemmas that turn the exact-rational pieces of the embedding
into integer arithmetic, so that concrete instances can be evaluated by
kernel reduction. -/

/-- For a positive divisor, the rational ceiling of `a / b` is the negated
integer (floor) division of `-a` by `b`. -/
theorem math_ceil_div_eq_neg_ediv_neg (a b : Int) (hb : 0 < b) :
    math_ceil_div a b = -(-a / b) := by
  unfold math_ceil_div
  have hbn : ((b.toNat : ℕ) : ℤ) = b := Int.toNat_of_nonneg hb.le
  have hbq : ((b.toNat : ℕ) : ℚ) = (b : ℚ) := by exact_mod_cast hbn
  have hcast : (a : ℚ) / (b : ℚ) = -((((-a : ℤ) : ℚ)) / ((b.toNat : ℕ) : ℚ)) := by
    rw [hbq]
    push_cast
    ring
  rw [hcast, Int.ceil_neg, Rat.floor_intCast_div_natCast, hbn]

/-- Evaluated form of `get_raster_chunks` on validated input: the loop with
the two ceiling divisions expressed over integers. -/
theorem get_raster_chunks_pos (w h cw ch : Int)
    (hw : 0 < w) (hh : 0 < h) (hcw : 0 < cw) (hch : 0 < ch) :
    get_raster_chunks w h cw ch =
      .ok ((List.range (-(-w / cw)).toNat).flatMap fun (col : Nat) =>
        (List.range (-(-h / ch)).toNat).map fun (row : Nat) =>
          get_chunk_bounds w h cw ch (row : Int) (col : Int)) := by
  rw [get_raster_chunks, if_neg (by omega)]
  rw [raster_chunk_list, math_ceil_div_eq_neg_ediv_neg w cw hcw,
    math_ceil_div_eq_neg_ediv_neg h ch hch]

/-! Facts about the rational ceiling division. -/

theorem lt_ceil_div_iff (a b c : Int) (hb : 0 < b) :
    c < math_ceil_div a b ↔ c * b < a := by
  unfold math_ceil_div
  rw [Int.lt_ceil]
  have hbq : (0 : ℚ) < (b : ℚ) := by exact_mod_cast hb
  rw [lt_div_iff₀ hbq]
  constructor
  · intro hq; exact_mod_cast hq
  · intro hz; exact_mod_cast hz

theorem le_ceil_div_mul (a b : Int) (hb : 0 < b) :
    a ≤ math_ceil_div a b * b := by
  have hbq : (0 : ℚ) < (b : ℚ) := by exact_mod_cast hb
  have h := Int.le_ceil ((a : ℚ) / (b : ℚ))
  rw [div_le_iff₀ hbq] at h
  unfold math_ceil_div
  exact_mod_cast h

theorem ceil_div_pos (a b : Int) (ha : 0 < a) (hb : 0 < b) :
    0 < math_ceil_div a b := by
  rw [lt_ceil_div_iff a b 0 hb]
  omega

theorem ceil_div_nonneg (a b : Int) (ha : 0 < a) (hb : 0 < b) :
    0 ≤ math_ceil_div a b :=
  (ceil_div_pos a b ha hb).le

/-- The tile rectangle, with the conditional sizes written as minima. -/
theorem get_chunk_bounds_min (w h cw ch row col : Int) :
    get_chunk_bounds w h cw ch row col =
      ⟨col * cw, row * ch, min cw (w - col * cw), min ch (h - row * ch)⟩ := by
  have hx : (if w - col * cw > cw then cw else w - col * cw) = min cw (w - col * cw) := by
    rw [min_def]; split_ifs <;> omega
  have hy : (if h - row * ch > ch then ch else h - row * ch) = min ch (h - row * ch) := by
    rw [min_def]; split_ifs <;> omega
  simp only [get_chunk_bounds]
  rw [hx, hy]

/-! The shape of a doubly nested `for` loop that appends one element per
inner iteration: list-level length, indexing, membership and sum lemmas. -/

theorem double_loop_succ (a b : Nat) (f : Nat → Nat → α) :
    double_loop (a + 1) b f = double_loop a b f ++ (List.range b).map (f a) := by
  unfold double_loop
  rw [List.range_succ, List.flatMap_append]
  simp

theorem double_loop_length (a b : Nat) (f : Nat → Nat → α) :
    (double_loop a b f).length = a * b := by
  induction a with
  | zero => simp [double_loop]
  | succ a ih =>
    rw [double_loop_succ, List.length_append, ih, List.length_map,
      List.length_range, Nat.succ_mul]

theorem double_loop_getElem (a b : Nat) (f : Nat → Nat → α)
    (c r : Nat) (hc : c < a) (hr : r < b) :
    (double_loop a b f)[c * b + r]? = some (f c r) := by
  induction a with
  | zero => omega
  | succ a ih =>
    rw [double_loop_succ]
    rcases Nat.lt_or_ge c a with hca | hca
    · rw [List.getElem?_append_left]
      · exact ih hca
      · calc c * b + r < c * b + b := by omega
          _ = (c + 1) * b := by ring
          _ ≤ a * b := Nat.mul_le_mul_right b (by omega)
          _ = (double_loop a b f).length := (double_loop_length a b f).symm
    · have hceq : c = a := by omega
      subst hceq
      rw [List.getElem?_append_right (by rw [double_loop_length]; omega)]
      rw [double_loop_length]
      have : c * b + r - c * b = r := by omega
      rw [this, List.getElem?_map, List.getElem?_range hr]
      rfl

theorem double_loop_getElem_inv (a b : Nat) (f : Nat → Nat → α)
    (i : Nat) (hi : i < a * b) :
    (double_loop a b f)[i]? = some (f (i / b) (i % b)) := by
  have hb : 0 < b := by
    rcases Nat.eq_zero_or_pos b with hb0 | hb0
    · subst hb0; omega
    · exact hb0
  have hc : i / b < a := Nat.div_lt_of_lt_mul (Nat.mul_comm a b ▸ hi)
  have hr : i % b < b := Nat.mod_lt i hb
  have hrec : i / b * b + i % b = i := by
    rw [Nat.mul_comm]
    exact Nat.div_add_mod i b
  have hg := double_loop_getElem a b f (i / b) (i % b) hc hr
  rwa [hrec] at hg

theorem double_loop_mem (a b : Nat) (f : Nat → Nat → α) (x : α) :
    x ∈ double_loop a b f ↔ ∃ c, c < a ∧ ∃ r, r < b ∧ x = f c r := by
  unfold double_loop
  simp only [List.mem_flatMap, List.mem_map, List.mem_range]
  constructor
  · rintro ⟨c, hc, r, hr, hx⟩
    exact ⟨c, hc, r, hr, hx.symm⟩
  · rintro ⟨c, hc, r, hr, hx⟩
    exact ⟨c, hc, r, hr, hx.symm⟩

theorem double_loop_map (a b : Nat) (f : Nat → Nat → α) (g : α → β) :
    (double_loop a b f).map g = double_loop a b fun c r => g (f c r) := by
  induction a with
  | zero => simp [double_loop]
  | succ a ih =>
    rw [double_loop_succ, double_loop_succ, List.map_append, ih, List.map_map]
    rfl

theorem double_loop_sum (a b : Nat) (v : Nat → Nat → Int) :
    (double_loop a b v).sum =
      ((List.range a).map fun c => ((List.range b).map (v c)).sum).sum := by
  induction a with
  | zero => simp [double_loop]
  | succ a ih =>
    rw [double_loop_succ, List.sum_append, ih, List.range_succ,
      List.map_append, List.sum_append]
    simp

/-! The chunk list as a double loop, and its per-index description. -/

theorem raster_chunk_list_eq_double_loop (w h cw ch : Int) :
    raster_chunk_list w h cw ch =
      double_loop (math_ceil_div w cw).toNat (math_ceil_div h ch).toNat
        (fun c r => get_chunk_bounds w h cw ch (r : Int) (c : Int)) := by
  unfold raster_chunk_list double_loop
  rfl

theorem raster_chunk_list_length (w h cw ch : Int) :
    (raster_chunk_list w h cw ch).length =
      (math_ceil_div w cw).toNat * (math_ceil_div h ch).toNat := by
  rw [raster_chunk_list_eq_double_loop, double_loop_length]

theorem raster_chunk_list_getElem (w h cw ch : Int) (c r : Nat)
    (hc : c < (math_ceil_div w cw).toNat) (hr : r < (math_ceil_div h ch).toNat) :
    (raster_chunk_list w h cw ch)[c * (math_ceil_div h ch).toNat + r]? =
      some (get_chunk_bounds w h cw ch (r : Int) (c : Int)) := by
  rw [raster_chunk_list_eq_double_loop]
  exact double_loop_getElem _ _ _ c r hc hr

theorem raster_chunk_list_getElem_inv (w h cw ch : Int) (i : Nat)
    (hi : i < (math_ceil_div w cw).toNat * (math_ceil_div h ch).toNat) :
    (raster_chunk_list w h cw ch)[i]? =
      some (get_chunk_bounds w h cw ch
        ((i % (math_ceil_div h ch).toNat : Nat) : Int)
        ((i / (math_ceil_div h ch).toNat : Nat) : Int)) := by
  rw [raster_chunk_list_eq_double_loop]
  exact double_loop_getElem_inv _ _ _ i hi

theorem raster_chunk_list_mem (w h cw ch : Int) (x : RasterBound) :
    x ∈ raster_chunk_list w h cw ch ↔
      ∃ c, c < (math_ceil_div w cw).toNat ∧
        ∃ r, r < (math_ceil_div h ch).toNat ∧
          x = get_chunk_bounds w h cw ch (r : Int) (c : Int) := by
  rw [raster_chunk_list_eq_double_loop]
  exact double_loop_mem _ _ _ x

/-! Pixel-level description of a tile in loop range. -/

theorem chunk_covers_iff (w h cw ch : Int) (hcw : 0 < cw) (hch : 0 < ch)
    (row col x y : Int) (hc0 : 0 ≤ col) (hc : col < math_ceil_div w cw)
    (hr0 : 0 ≤ row) (hr : row < math_ceil_div h ch) :
    (get_chunk_bounds w h cw ch row col).covers x y ↔
      (col = x / cw ∧ row = y / ch ∧ 0 ≤ x ∧ x < w ∧ 0 ≤ y ∧ y < h) := by
  rw [get_chunk_bounds_min]
  show col * cw ≤ x ∧ x < col * cw + min cw (w - col * cw) ∧
      row * ch ≤ y ∧ y < row * ch + min ch (h - row * ch) ↔ _
  have hcwlt : col * cw < w := (lt_ceil_div_iff w cw col hcw).mp hc
  have hchlt : row * ch < h := (lt_ceil_div_iff h ch row hch).mp hr
  have hca : 0 ≤ col * cw := mul_nonneg hc0 hcw.le
  have hra : 0 ≤ row * ch := mul_nonneg hr0 hch.le
  constructor
  · rintro ⟨h1, h2, h3, h4⟩
    have hxc : x < (col + 1) * cw := by
      have hexp : (col + 1) * cw = col * cw + cw := by ring
      omega
    have hyc : y < (row + 1) * ch := by
      have hexp : (row + 1) * ch = row * ch + ch := by ring
      omega
    have hcle : col ≤ x / cw := (Int.le_ediv_iff_mul_le hcw).mpr h1
    have hclt : x / cw < col + 1 := (Int.ediv_lt_iff_lt_mul hcw).mpr hxc
    have hrle : row ≤ y / ch := (Int.le_ediv_iff_mul_le hch).mpr h3
    have hrlt : y / ch < row + 1 := (Int.ediv_lt_iff_lt_mul hch).mpr hyc
    omega
  · rintro ⟨hcol, hrow, hx0, hxw, hy0, hyh⟩
    subst hcol hrow
    have h1 : x / cw * cw ≤ x := Int.ediv_mul_le x (by omega)
    have h2 : x < (x / cw + 1) * cw := Int.lt_ediv_add_one_mul_self x hcw
    have h3 : y / ch * ch ≤ y := Int.ediv_mul_le y (by omega)
    have h4 : y < (y / ch + 1) * ch := Int.lt_ediv_add_one_mul_self y hch
    have hexp1 : (x / cw + 1) * cw = x / cw * cw + cw := by ring
    have hexp2 : (y / ch + 1) * ch = y / ch * ch + ch := by ring
    omega

theorem ediv_range_of_pixel (x w cw : Int) (hcw : 0 < cw)
    (hx0 : 0 ≤ x) (hxw : x < w) :
    0 ≤ x / cw ∧ x / cw < math_ceil_div w cw := by
  refine ⟨Int.ediv_nonneg hx0 hcw.le, ?_⟩
  rw [lt_ceil_div_iff w cw _ hcw]
  calc x / cw * cw ≤ x := Int.ediv_mul_le x (by omega)
    _ < w := hxw

theorem raster_chunk_list_get (w h cw ch : Int)
    (i : Fin (raster_chunk_list w h cw ch).length) :
    (raster_chunk_list w h cw ch).get i =
      get_chunk_bounds w h cw ch
        ((i.val % (math_ceil_div h ch).toNat : Nat) : Int)
        ((i.val / (math_ceil_div h ch).toNat : Nat) : Int) := by
  have hi : i.val < (math_ceil_div w cw).toNat * (math_ceil_div h ch).toNat := by
    have hlen := raster_chunk_list_length w h cw ch
    have hisLt := i.isLt
    omega
  have h1 := raster_chunk_list_getElem_inv w h cw ch i.val hi
  rw [List.getElem?_eq_getElem i.isLt] at h1
  rw [List.get_eq_getElem]
  exact Option.some.inj h1

theorem raster_chunk_list_get_of_col_row (w h cw ch : Int) (c r : Nat)
    (hc : c < (math_ceil_div w cw).toNat) (hr : r < (math_ceil_div h ch).toNat)
    (hidx : c * (math_ceil_div h ch).toNat + r < (raster_chunk_list w h cw ch).length) :
    (raster_chunk_list w h cw ch).get ⟨c * (math_ceil_div h ch).toNat + r, hidx⟩ =
      get_chunk_bounds w h cw ch (r : Int) (c : Int) := by
  have h1 := raster_chunk_list_getElem w h cw ch c r hc hr
  rw [List.getElem?_eq_getElem hidx] at h1
  rw [List.get_eq_getElem]
  exact Option.some.inj h1

/-! The total area of the chunk list. -/

theorem sum_min_first_k (w cw : Int) (hw : 0 < w) (hcw : 0 < cw) :
    ∀ k : Nat, k ≤ (math_ceil_div w cw).toNat →
      ((List.range k).map fun (c : Nat) => min cw (w - (c : Int) * cw)).sum =
        min ((k : Int) * cw) w := by
  intro k
  induction k with
  | zero =>
    intro _
    simp
    omega
  | succ k ih =>
    intro hk
    rw [List.range_succ, List.map_append, List.sum_append, ih (by omega)]
    have hck : (k : Int) < math_ceil_div w cw := by
      have hnn : 0 ≤ math_ceil_div w cw := ceil_div_pos w cw hw hcw |>.le
      omega
    have hlt : (k : Int) * cw < w := (lt_ceil_div_iff w cw _ hcw).mp hck
    have hexp : ((k : Int) + 1) * cw = (k : Int) * cw + cw := by ring
    simp only [List.map_cons, List.map_nil, List.sum_cons, List.sum_nil]
    push_cast
    omega

theorem sum_min_sizes (w cw : Int) (hw : 0 < w) (hcw : 0 < cw) :
    ((List.range (math_ceil_div w cw).toNat).map
        fun (c : Nat) => min cw (w - (c : Int) * cw)).sum = w := by
  rw [sum_min_first_k w cw hw hcw _ le_rfl]
  have h1 : w ≤ ((math_ceil_div w cw).toNat : Int) * cw := by
    have h2 := le_ceil_div_mul w cw hcw
    have h3 : ((math_ceil_div w cw).toNat : Int) = math_ceil_div w cw :=
      Int.toNat_of_nonneg (ceil_div_pos w cw hw hcw).le
    rw [h3]
    exact h2
  omega

theorem raster_chunk_list_area_sum (w h cw ch : Int)
    (hw : 0 < w) (hh : 0 < h) (hcw : 0 < cw) (hch : 0 < ch) :
    ((raster_chunk_list w h cw ch).map fun r => r.x_size * r.y_size).sum =
      w * h := by
  rw [raster_chunk_list_eq_double_loop, double_loop_map]
  simp only [get_chunk_bounds_min]
  rw [double_loop_sum]
  have hinner : ∀ c : Nat,
      ((List.range (math_ceil_div h ch).toNat).map fun (r : Nat) =>
        min cw (w - (c : Int) * cw) * min ch (h - (r : Int) * ch)).sum =
      min cw (w - (c : Int) * cw) * h := by
    intro c
    rw [List.sum_map_mul_left, sum_min_sizes h ch hh hch]
  simp only [hinner]
  rw [List.sum_map_mul_right, sum_min_sizes w cw hw hcw]

/-! Claim theorems. -/

/-- C1: for every strictly positive width, height, chunkWidth and
chunkHeight, get_raster_chunks succeeds and yields rectangles that are
pairwise non-overlapping, whose union is exactly the pixel grid
[0,width) × [0,height) (every grid pixel is covered by a yielded
rectangle, every covered pixel lies in the grid, and no pixel is covered
twice), whose areas sum to width * height, and each of which has
x_size ≥ 1 and y_size ≥ 1. -/
theorem C1_chunks_partition (w h cw ch : Int)
    (hw : 0 < w) (hh : 0 < h) (hcw : 0 < cw) (hch : 0 < ch) :
    ∃ rs : List RasterBound, get_raster_chunks w h cw ch = .ok rs ∧
      (∀ r ∈ rs, 1 ≤ r.x_size ∧ 1 ≤ r.y_size) ∧
      (∀ i j : Fin rs.length, i ≠ j → ∀ x y : Int,
        ¬((rs.get i).covers x y ∧ (rs.get j).covers x y)) ∧
      (∀ x y : Int, (0 ≤ x ∧ x < w ∧ 0 ≤ y ∧ y < h) ↔
        ∃ i : Fin rs.length, (rs.get i).covers x y) ∧
      (rs.map fun r => r.x_size * r.y_size).sum = w * h := by
  have hnc : 0 < math_ceil_div w cw := ceil_div_pos w cw hw hcw
  have hnr : 0 < math_ceil_div h ch := ceil_div_pos h ch hh hch
  refine ⟨raster_chunk_list w h cw ch, ?_, ?_, ?_, ?_, ?_⟩
  · rw [get_raster_chunks, if_neg (by omega)]
  · intro r hr
    rw [raster_chunk_list_mem] at hr
    obtain ⟨c, hc, rr, hrr, rfl⟩ := hr
    have hcInt : (c : Int) < math_ceil_div w cw := by omega
    have hrInt : (rr : Int) < math_ceil_div h ch := by omega
    have h1 : (c : Int) * cw < w := (lt_ceil_div_iff w cw _ hcw).mp hcInt
    have h2 : (rr : Int) * ch < h := (lt_ceil_div_iff h ch _ hch).mp hrInt
    rw [get_chunk_bounds_min]
    constructor
    · show (1 : Int) ≤ min cw (w - (c : Int) * cw)
      omega
    · show (1 : Int) ≤ min ch (h - (rr : Int) * ch)
      omega
  · intro i j hij x y hcov
    obtain ⟨hci, hcj⟩ := hcov
    rw [raster_chunk_list_get] at hci hcj
    have hlen := raster_chunk_list_length w h cw ch
    have hleni : i.val < (math_ceil_div w cw).toNat * (math_ceil_div h ch).toNat := by
      have hisLt := i.isLt
      omega
    have hlenj : j.val < (math_ceil_div w cw).toNat * (math_ceil_div h ch).toNat := by
      have hisLt := j.isLt
      omega
    have hnrt : 0 < (math_ceil_div h ch).toNat := by omega
    have hdivi : i.val / (math_ceil_div h ch).toNat < (math_ceil_div w cw).toNat :=
      Nat.div_lt_of_lt_mul (Nat.mul_comm _ _ ▸ hleni)
    have hdivj : j.val / (math_ceil_div h ch).toNat < (math_ceil_div w cw).toNat :=
      Nat.div_lt_of_lt_mul (Nat.mul_comm _ _ ▸ hlenj)
    have hmodi : i.val % (math_ceil_div h ch).toNat < (math_ceil_div h ch).toNat :=
      Nat.mod_lt _ hnrt
    have hmodj : j.val % (math_ceil_div h ch).toNat < (math_ceil_div h ch).toNat :=
      Nat.mod_lt _ hnrt
    rw [chunk_covers_iff w h cw ch hcw hch _ _ x y
      (Int.natCast_nonneg _) (by omega) (Int.natCast_nonneg _) (by omega)] at hci
    rw [chunk_covers_iff w h cw ch hcw hch _ _ x y
      (Int.natCast_nonneg _) (by omega) (Int.natCast_nonneg _) (by omega)] at hcj
    obtain ⟨hci1, hci2, -⟩ := hci
    obtain ⟨hcj1, hcj2, -⟩ := hcj
    have hdiv : i.val / (math_ceil_div h ch).toNat = j.val / (math_ceil_div h ch).toNat := by
      have hcast : ((i.val / (math_ceil_div h ch).toNat : Nat) : Int) =
          ((j.val / (math_ceil_div h ch).toNat : Nat) : Int) := by
        rw [hcj1, hci1]
      exact_mod_cast hcast
    have hmod : i.val % (math_ceil_div h ch).toNat = j.val % (math_ceil_div h ch).toNat := by
      have hcast : ((i.val % (math_ceil_div h ch).toNat : Nat) : Int) =
          ((j.val % (math_ceil_div h ch).toNat : Nat) : Int) := by
        rw [hcj2, hci2]
      exact_mod_cast hcast
    apply hij
    apply Fin.ext
    have hieq : i.val = (math_ceil_div h ch).toNat * (i.val / (math_ceil_div h ch).toNat) +
        i.val % (math_ceil_div h ch).toNat := (Nat.div_add_mod _ _).symm
    have hjeq : j.val = (math_ceil_div h ch).toNat * (j.val / (math_ceil_div h ch).toNat) +
        j.val % (math_ceil_div h ch).toNat := (Nat.div_add_mod _ _).symm
    rw [hieq, hjeq, hdiv, hmod]
  · intro x y
    constructor
    · rintro ⟨hx0, hxw, hy0, hyh⟩
      obtain ⟨hq0, hqlt⟩ := ediv_range_of_pixel x w cw hcw hx0 hxw
      obtain ⟨hp0, hplt⟩ := ediv_range_of_pixel y h ch hch hy0 hyh
      have hcn : (x / cw).toNat < (math_ceil_div w cw).toNat := by omega
      have hrn : (y / ch).toNat < (math_ceil_div h ch).toNat := by omega
      have hidx : (x / cw).toNat * (math_ceil_div h ch).toNat + (y / ch).toNat <
          (raster_chunk_list w h cw ch).length := by
        rw [raster_chunk_list_length]
        calc (x / cw).toNat * (math_ceil_div h ch).toNat + (y / ch).toNat
            < (x / cw).toNat * (math_ceil_div h ch).toNat + (math_ceil_div h ch).toNat := by
              omega
          _ = ((x / cw).toNat + 1) * (math_ceil_div h ch).toNat := by ring
          _ ≤ (math_ceil_div w cw).toNat * (math_ceil_div h ch).toNat :=
              Nat.mul_le_mul_right _ (by omega)
      refine ⟨⟨_, hidx⟩, ?_⟩
      rw [raster_chunk_list_get_of_col_row w h cw ch _ _ hcn hrn hidx]
      rw [chunk_covers_iff w h cw ch hcw hch _ _ x y
        (Int.natCast_nonneg _) (by omega) (Int.natCast_nonneg _) (by omega)]
      exact ⟨Int.toNat_of_nonneg hq0, Int.toNat_of_nonneg hp0, hx0, hxw, hy0, hyh⟩
    · rintro ⟨i, hcov⟩
      rw [raster_chunk_list_get] at hcov
      have hlen := raster_chunk_list_length w h cw ch
      have hleni : i.val < (math_ceil_div w cw).toNat * (math_ceil_div h ch).toNat := by
        have hisLt := i.isLt
        omega
      have hnrt : 0 < (math_ceil_div h ch).toNat := by omega
      have hdivi : i.val / (math_ceil_div h ch).toNat < (math_ceil_div w cw).toNat :=
        Nat.div_lt_of_lt_mul (Nat.mul_comm _ _ ▸ hleni)
      have hmodi : i.val % (math_ceil_div h ch).toNat < (math_ceil_div h ch).toNat :=
        Nat.mod_lt _ hnrt
      rw [chunk_covers_iff w h cw ch hcw hch _ _ x y
        (Int.natCast_nonneg _) (by omega) (Int.natCast_nonneg _) (by omega)] at hcov
      exact ⟨hcov.2.2.1, hcov.2.2.2.1, hcov.2.2.2.2.1, hcov.2.2.2.2.2⟩
  · exact raster_chunk_list_area_sum w h cw ch hw hh hcw hch

/-- Witness for C1 at the concrete input width = 10, height = 10,
chunkWidth = 4, chunkHeight = 4. -/
theorem C1_chunks_partition_witness :
    ∃ rs : List RasterBound, get_raster_chunks 10 10 4 4 = .ok rs ∧
      (∀ r ∈ rs, 1 ≤ r.x_size ∧ 1 ≤ r.y_size) ∧
      (∀ i j : Fin rs.length, i ≠ j → ∀ x y : Int,
        ¬((rs.get i).covers x y ∧ (rs.get j).covers x y)) ∧
      (∀ x y : Int, (0 ≤ x ∧ x < 10 ∧ 0 ≤ y ∧ y < 10) ↔
        ∃ i : Fin rs.length, (rs.get i).covers x y) ∧
      (rs.map fun r => r.x_size * r.y_size).sum = 10 * 10 :=
  C1_chunks_partition 10 10 4 4 (by decide) (by decide) (by decide) (by decide)

/-- C2: for every strictly positive input, get_raster_chunks yields exactly
ceil(width/chunkWidth) * ceil(height/chunkHeight) rectangles, and the
rectangle of tile index (row, col) — emitted at position col * nRows + row —
is (col*chunkWidth, row*chunkHeight, min(chunkWidth, width - x_off),
min(chunkHeight, height - y_off)). -/
theorem C2_chunk_count_and_tile_formula (w h cw ch : Int)
    (hw : 0 < w) (hh : 0 < h) (hcw : 0 < cw) (hch : 0 < ch) :
    ∃ rs : List RasterBound, get_raster_chunks w h cw ch = .ok rs ∧
      (rs.length : Int) = math_ceil_div w cw * math_ceil_div h ch ∧
      ∀ row col : Nat, row < (math_ceil_div h ch).toNat →
        col < (math_ceil_div w cw).toNat →
        rs[col * (math_ceil_div h ch).toNat + row]? =
          some ⟨(col : Int) * cw, (row : Int) * ch,
            min cw (w - (col : Int) * cw), min ch (h - (row : Int) * ch)⟩ := by
  have hnc : 0 < math_ceil_div w cw := ceil_div_pos w cw hw hcw
  have hnr : 0 < math_ceil_div h ch := ceil_div_pos h ch hh hch
  refine ⟨raster_chunk_list w h cw ch, ?_, ?_, ?_⟩
  · rw [get_raster_chunks, if_neg (by omega)]
  · rw [raster_chunk_list_length]
    push_cast
    rw [Int.toNat_of_nonneg hnc.le, Int.toNat_of_nonneg hnr.le]
  · intro row col hr hc
    rw [raster_chunk_list_getElem w h cw ch col row hc hr, get_chunk_bounds_min]

/-- Witness for C2 at the concrete input width = 10, height = 10,
chunkWidth = 4, chunkHeight = 4. -/
theorem C2_chunk_count_and_tile_formula_witness :
    ∃ rs : List RasterBound, get_raster_chunks 10 10 4 4 = .ok rs ∧
      (rs.length : Int) = math_ceil_div 10 4 * math_ceil_div 10 4 ∧
      ∀ row col : Nat, row < (math_ceil_div 10 4).toNat →
        col < (math_ceil_div 10 4).toNat →
        rs[col * (math_ceil_div 10 4).toNat + row]? =
          some ⟨(col : Int) * 4, (row : Int) * 4,
            min 4 (10 - (col : Int) * 4), min 4 (10 - (row : Int) * 4)⟩ :=
  C2_chunk_count_and_tile_formula 10 10 4 4 (by decide) (by decide) (by decide) (by decide)

/-- C3: the rectangles are emitted in column-major order — the tile of
column col and row row sits at position col * nRows + row of the yielded
sequence, so the nRows tiles of column 0 come first (rows increasing),
then those of column 1, and so on — and on the input (10, 10, 4, 4) the
sequence is exactly the nine claimed rectangles in that order. -/
theorem C3_column_major_order (w h cw ch : Int)
    (hw : 0 < w) (hh : 0 < h) (hcw : 0 < cw) (hch : 0 < ch) :
    (∃ rs : List RasterBound, get_raster_chunks w h cw ch = .ok rs ∧
      rs.length = (math_ceil_div w cw).toNat * (math_ceil_div h ch).toNat ∧
      ∀ col row : Nat, col < (math_ceil_div w cw).toNat →
        row < (math_ceil_div h ch).toNat →
        rs[col * (math_ceil_div h ch).toNat + row]? =
          some (get_chunk_bounds w h cw ch (row : Int) (col : Int))) ∧
    get_raster_chunks 10 10 4 4 =
      .ok [⟨0, 0, 4, 4⟩, ⟨0, 4, 4, 4⟩, ⟨0, 8, 4, 2⟩,
           ⟨4, 0, 4, 4⟩, ⟨4, 4, 4, 4⟩, ⟨4, 8, 4, 2⟩,
           ⟨8, 0, 2, 4⟩, ⟨8, 4, 2, 4⟩, ⟨8, 8, 2, 2⟩] := by
  constructor
  · refine ⟨raster_chunk_list w h cw ch, ?_, raster_chunk_list_length w h cw ch, ?_⟩
    · rw [get_raster_chunks, if_neg (by omega)]
    · intro col row hc hr
      exact raster_chunk_list_getElem w h cw ch col row hc hr
  · rw [get_raster_chunks_pos 10 10 4 4 (by decide) (by decide) (by decide) (by decide)]
    decide

/-- Witness for C3 at the concrete input width = 10, height = 10,
chunkWidth = 4, chunkHeight = 4. -/
theorem C3_column_major_order_witness :
    ∃ rs : List RasterBound, get_raster_chunks 10 10 4 4 = .ok rs ∧
      rs.length = (math_ceil_div 10 4).toNat * (math_ceil_div 10 4).toNat ∧
      ∀ col row : Nat, col < (math_ceil_div 10 4).toNat →
        row < (math_ceil_div 10 4).toNat →
        rs[col * (math_ceil_div 10 4).toNat + row]? =
          some (get_chunk_bounds 10 10 4 4 (row : Int) (col : Int)) :=
  (C3_column_major_order 10 10 4 4 (by decide) (by decide) (by decide) (by decide)).1

/-- C5: with a non-positive width, height, chunk width or chunk height the
consumed sequence fails with the ValueError and its trace is just the
raise, so no rectangle is observed before the failure; with strictly
positive arguments the sequence succeeds and no error event ever occurs
in the trace. -/
theorem C5_invalid_input_rejection (w h cw ch : Int) :
    ((w ≤ 0 ∨ h ≤ 0 ∨ cw ≤ 0 ∨ ch ≤ 0) →
      get_raster_chunks w h cw ch = .error .valueError ∧
      gen_trace (mk_raster_chunks_gen w h cw ch) = [.raised .valueError]) ∧
    (0 < w → 0 < h → 0 < cw → 0 < ch →
      (∃ rs, get_raster_chunks w h cw ch = .ok rs) ∧
      ∀ e ∈ gen_trace (mk_raster_chunks_gen w h cw ch),
        ∀ err : PyError, e ≠ .raised err) := by
  constructor
  · intro hbad
    constructor
    · rw [get_raster_chunks, if_pos hbad]
    · simp only [gen_trace, mk_raster_chunks_gen]
      rw [if_pos hbad]
  · intro hw hh hcw hch
    constructor
    · exact ⟨raster_chunk_list w h cw ch, by rw [get_raster_chunks, if_neg (by omega)]⟩
    · intro e he err
      simp only [gen_trace, mk_raster_chunks_gen] at he
      rw [if_neg (by omega)] at he
      rcases List.mem_append.mp he with hy | hs
      · obtain ⟨r, hr, rfl⟩ := List.mem_map.mp hy
        simp
      · rw [List.mem_singleton] at hs
        subst hs
        simp

/-- Witness for C5 at the concrete invalid input width = 0 (and, through
the same application, at the valid input (5, 5, 5, 5)). -/
theorem C5_invalid_input_rejection_witness :
    (get_raster_chunks 0 5 5 5 = .error .valueError ∧
      gen_trace (mk_raster_chunks_gen 0 5 5 5) = [.raised .valueError]) ∧
    (∃ rs, get_raster_chunks 5 5 5 5 = .ok rs) :=
  ⟨(C5_invalid_input_rejection 0 5 5 5).1 (by decide),
   ((C5_invalid_input_rejection 5 5 5 5).2 (by decide) (by decide) (by decide)
     (by decide)).1⟩

/-- C7: chunk generation is deterministic and restartable: two generator
objects created from the same valid input produce identical ordered
rectangle sequences — the same length and the same rectangle at every
position. -/
theorem C7_deterministic_restartable (w h cw ch : Int)
    (g1 g2 : RasterChunksGen)
    (hw : 0 < w) (hh : 0 < h) (hcw : 0 < cw) (hch : 0 < ch)
    (h1 : g1 = mk_raster_chunks_gen w h cw ch)
    (h2 : g2 = mk_raster_chunks_gen w h cw ch) :
    (gen_yields g1).length = (gen_yields g2).length ∧
      ∀ i : Nat, (gen_yields g1)[i]? = (gen_yields g2)[i]? := by
  subst h1
  subst h2
  exact ⟨rfl, fun i => rfl⟩

/-- Witness for C7: two generators built from the input (10, 10, 4, 4). -/
theorem C7_deterministic_restartable_witness :
    (gen_yields (mk_raster_chunks_gen 10 10 4 4)).length =
        (gen_yields (mk_raster_chunks_gen 10 10 4 4)).length ∧
      ∀ i : Nat, (gen_yields (mk_raster_chunks_gen 10 10 4 4))[i]? =
        (gen_yields (mk_raster_chunks_gen 10 10 4 4))[i]? :=
  C7_deterministic_restartable 10 10 4 4 _ _ (by decide) (by decide) (by decide)
    (by decide) rfl rfl

/-- C9: validation is lazy: calling get_raster_chunks only builds the
generator and runs no body code, so even with non-positive arguments a
caller that requests no element observes nothing — no error and no
rectangle — and the ValueError appears exactly when the first element is
requested. -/
theorem C9_lazy_validation (w h cw ch : Int) :
    gen_observe (mk_raster_chunks_gen w h cw ch) 0 = [] ∧
    ((w ≤ 0 ∨ h ≤ 0 ∨ cw ≤ 0 ∨ ch ≤ 0) →
      gen_observe (mk_raster_chunks_gen w h cw ch) 1 = [.raised .valueError] ∧
      ∀ r : RasterBound,
        GenEvent.yielded r ∉ gen_trace (mk_raster_chunks_gen w h cw ch)) := by
  constructor
  · rfl
  · intro hbad
    constructor
    · simp only [gen_observe, gen_trace, mk_raster_chunks_gen]
      rw [if_pos hbad]
      rfl
    · intro r hmem
      simp only [gen_trace, mk_raster_chunks_gen] at hmem
      rw [if_pos hbad] at hmem
      simp at hmem

/-- Witness for C9 at the concrete invalid input (5, -1, 5, 5). -/
theorem C9_lazy_validation_witness :
    gen_observe (mk_raster_chunks_gen 5 (-1) 5 5) 0 = [] ∧
      gen_observe (mk_raster_chunks_gen 5 (-1) 5 5) 1 = [.raised .valueError] :=
  ⟨(C9_lazy_validation 5 (-1) 5 5).1,
   ((C9_lazy_validation 5 (-1) 5 5).2 (by decide)).1⟩

/-- C8: equality on RasterBound values is structural: comparing two
RasterBound objects, __eq__ returns True exactly when the four fields
x_off, y_off, x_size, y_size all agree, and __ne__ returns True exactly
when __eq__ does not. -/
theorem C8_structural_equality (a b : RasterBound) :
    (a.eq b.toPyObj = .ok true ↔
      (a.x_off = b.x_off ∧ a.y_off = b.y_off ∧
        a.x_size = b.x_size ∧ a.y_size = b.y_size)) ∧
    (a.ne b.toPyObj = .ok true ↔ ¬ a.eq b.toPyObj = .ok true) := by
  have heval : a.eq b.toPyObj =
      .ok (decide (a.x_off = b.x_off ∧ a.y_off = b.y_off ∧
        a.x_size = b.x_size ∧ a.y_size = b.y_size)) := by
    unfold RasterBound.eq RasterBound.toPyObj py_getattr
    by_cases h1 : a.x_off = b.x_off <;> by_cases h2 : a.y_off = b.y_off <;>
      by_cases h3 : a.x_size = b.x_size <;> by_cases h4 : a.y_size = b.y_size <;>
      simp [h1, h2, h3, h4, Bind.bind, Except.bind, Pure.pure, Except.pure]
  have hne : a.ne b.toPyObj =
      .ok (!(decide (a.x_off = b.x_off ∧ a.y_off = b.y_off ∧
        a.x_size = b.x_size ∧ a.y_size = b.y_size))) := by
    unfold RasterBound.ne
    rw [heval]
    rfl
  rw [heval, hne]
  by_cases hfields : a.x_off = b.x_off ∧ a.y_off = b.y_off ∧
      a.x_size = b.x_size ∧ a.y_size = b.y_size <;>
    simp [hfields]

/-- C10: comparing a RasterBound with an object that lacks all four of the
name-mangled private attributes raises AttributeError from both __eq__ and
__ne__, rather than returning False or NotImplemented. -/
theorem C10_eq_raises_on_foreign_object (a : RasterBound) (o : PyObj)
    (h1 : o.x_off = none) (h2 : o.y_off = none)
    (h3 : o.x_size = none) (h4 : o.y_size = none) :
    a.eq o = .error .attributeError ∧ a.ne o = .error .attributeError := by
  obtain ⟨o1, o2, o3, o4⟩ := o
  simp only at h1 h2 h3 h4
  subst h1
  subst h2
  subst h3
  subst h4
  exact ⟨rfl, rfl⟩

/-- Witness for C10: the RasterBound (0, 0, 1, 1) compared against the
attribute-free object. -/
theorem C10_eq_raises_on_foreign_object_witness :
    RasterBound.eq ⟨0, 0, 1, 1⟩ ⟨none, none, none, none⟩ =
        .error .attributeError ∧
      RasterBound.ne ⟨0, 0, 1, 1⟩ ⟨none, none, none, none⟩ =
        .error .attributeError :=
  C10_eq_raises_on_foreign_object ⟨0, 0, 1, 1⟩ ⟨none, none, none, none⟩
    rfl rfl rfl rfl

/-! Helpers for the memory-limited planner. -/

theorem math_ceil_div_self (w : Int) (hw : 0 < w) : math_ceil_div w w = 1 := by
  unfold math_ceil_div
  rw [div_self (by exact_mod_cast hw.ne' : (w : ℚ) ≠ 0)]
  exact Int.ceil_one

/-- Chunk dimensions equal to the raster dimensions produce the single
whole-raster rectangle. -/
theorem get_raster_chunks_whole (w h : Int) (hw : 0 < w) (hh : 0 < h) :
    get_raster_chunks w h w h = .ok [⟨0, 0, w, h⟩] := by
  rw [get_raster_chunks, if_neg (by omega)]
  have h1 : (math_ceil_div w w).toNat = 1 := by rw [math_ceil_div_self w hw]; rfl
  have h2 : (math_ceil_div h h).toNat = 1 := by rw [math_ceil_div_self h hh]; rfl
  rw [raster_chunk_list_eq_double_loop, h1, h2]
  have h3 : double_loop 1 1 (fun c r => get_chunk_bounds w h w h (r : Int) (c : Int)) =
      [get_chunk_bounds w h w h 0 0] := rfl
  rw [h3, get_chunk_bounds_min]
  have h4 : (⟨0 * w, 0 * h, min w (w - 0 * w), min h (h - 0 * h)⟩ : RasterBound) =
      ⟨0, 0, w, h⟩ := by
    have hx : min w (w - 0 * w) = w := by omega
    have hy : min h (h - 0 * h) = h := by omega
    rw [hx, hy]
    norm_num
  rw [h4]

theorem int_sqrt_one_le (z : Int) (hz : 1 ≤ z) : 1 ≤ Int.sqrt z := by
  unfold Int.sqrt
  have h1 : 0 < z.toNat := by omega
  have h2 := Nat.sqrt_pos.mpr h1
  omega

theorem int_sqrt_250000 : Int.sqrt 250000 = 500 := by
  unfold Int.sqrt
  have h : (250000 : Int).toNat = 500 * 500 := by decide
  rw [h, Nat.sqrt_eq]
  norm_num

/-- C4: with maxPixels = memoryLimitMB / (nRasters * bytesPerPixel / 1e6):
when maxPixels > width * height the result is the single whole-raster
rectangle (0, 0, width, height); otherwise the call yields the same
sequence as get_raster_chunks with square chunk size
floor(sqrt(maxPixels)).  The two concrete instances of the claim evaluate
as stated: (1, 100, 100, 1000, 4) gives the one rectangle (0,0,100,100)
and (1, 10000, 10000, 1, 4) gives the 400 rectangles of the 500 × 500
tiling. -/
theorem C4_memory_limited_policy (n w h lim bpp : Int)
    (hdiv : 0 < n * bpp) (hlim : 0 ≤ lim) (hw : 0 < w) (hh : 0 < h) :
    (((lim : ℚ) / ((n : ℚ) * (bpp : ℚ) / 1000000) > (w : ℚ) * (h : ℚ)) →
      get_memory_limited_raster_chunks n w h lim bpp = .ok [⟨0, 0, w, h⟩]) ∧
    (¬ ((lim : ℚ) / ((n : ℚ) * (bpp : ℚ) / 1000000) > (w : ℚ) * (h : ℚ)) →
      get_memory_limited_raster_chunks n w h lim bpp =
        get_raster_chunks w h
          (Int.sqrt ⌊(lim : ℚ) / ((n : ℚ) * (bpp : ℚ) / 1000000)⌋)
          (Int.sqrt ⌊(lim : ℚ) / ((n : ℚ) * (bpp : ℚ) / 1000000)⌋)) ∧
    get_memory_limited_raster_chunks 1 100 100 1000 4 = .ok [⟨0, 0, 100, 100⟩] ∧
    get_memory_limited_raster_chunks 1 10000 10000 1 4 =
      get_raster_chunks 10000 10000 500 500 ∧
    (∃ rs, get_memory_limited_raster_chunks 1 10000 10000 1 4 = .ok rs ∧
      rs.length = 400) := by
  have hdq : (0 : ℚ) < (n : ℚ) * (bpp : ℚ) / 1000000 := by
    have hq : (0 : ℚ) < ((n * bpp : Int) : ℚ) := by exact_mod_cast hdiv
    push_cast at hq
    exact div_pos hq (by norm_num)
  have hconc2 : get_memory_limited_raster_chunks 1 10000 10000 1 4 =
      get_raster_chunks 10000 10000 500 500 := by
    simp only [get_memory_limited_raster_chunks]
    norm_num [int_sqrt_250000]
  refine ⟨?_, ?_, ?_, hconc2, ?_⟩
  · intro hgt
    simp only [get_memory_limited_raster_chunks]
    rw [if_neg (not_le.mpr hdq), if_pos hgt]
    exact get_raster_chunks_whole w h hw hh
  · intro hngt
    simp only [get_memory_limited_raster_chunks]
    rw [if_neg (not_le.mpr hdq), if_neg hngt,
      if_neg (not_lt.mpr (div_nonneg (by exact_mod_cast hlim) hdq.le))]
  · simp only [get_memory_limited_raster_chunks]
    norm_num
    exact get_raster_chunks_whole 100 100 (by decide) (by decide)
  · refine ⟨raster_chunk_list 10000 10000 500 500, ?_, ?_⟩
    · rw [hconc2, get_raster_chunks, if_neg (by decide)]
    · rw [raster_chunk_list_length]
      have h20 : math_ceil_div 10000 500 = 20 := by
        rw [math_ceil_div_eq_neg_ediv_neg 10000 500 (by decide)]
        decide
      rw [h20]
      decide

/-- Witness for C4 at the concrete input nRasters = 1, width = 100,
height = 100, memoryLimitMB = 1000, bytesPerPixel = 4. -/
theorem C4_memory_limited_policy_witness :
    ((((1000 : Int) : ℚ) / (((1 : Int) : ℚ) * ((4 : Int) : ℚ) / 1000000) >
        ((100 : Int) : ℚ) * ((100 : Int) : ℚ)) →
      get_memory_limited_raster_chunks 1 100 100 1000 4 = .ok [⟨0, 0, 100, 100⟩]) ∧
    (¬ (((1000 : Int) : ℚ) / (((1 : Int) : ℚ) * ((4 : Int) : ℚ) / 1000000) >
        ((100 : Int) : ℚ) * ((100 : Int) : ℚ)) →
      get_memory_limited_raster_chunks 1 100 100 1000 4 =
        get_raster_chunks 100 100
          (Int.sqrt ⌊((1000 : Int) : ℚ) /
            (((1 : Int) : ℚ) * ((4 : Int) : ℚ) / 1000000)⌋)
          (Int.sqrt ⌊((1000 : Int) : ℚ) /
            (((1 : Int) : ℚ) * ((4 : Int) : ℚ) / 1000000)⌋)) ∧
    get_memory_limited_raster_chunks 1 100 100 1000 4 = .ok [⟨0, 0, 100, 100⟩] ∧
    get_memory_limited_raster_chunks 1 10000 10000 1 4 =
      get_raster_chunks 10000 10000 500 500 ∧
    (∃ rs, get_memory_limited_raster_chunks 1 10000 10000 1 4 = .ok rs ∧
      rs.length = 400) :=
  C4_memory_limited_policy 1 100 100 1000 4 (by decide) (by decide)
    (by decide) (by decide)

/-- C6 counterexample: with nRasters = -1 and bytesPerPixel = -4 — both
arguments non-positive — and width = height = 100, memoryLimitMB = 1000,
get_memory_limited_raster_chunks does not fail: the two negatives cancel
in the divisor product and the call returns the whole-raster rectangle. -/
theorem C6_nonpositive_args_counterexample :
    ((-1 : Int) ≤ 0 ∧ (-4 : Int) ≤ 0) ∧
    get_memory_limited_raster_chunks (-1) 100 100 1000 (-4) =
      .ok [⟨0, 0, 100, 100⟩] := by
  refine ⟨by decide, ?_⟩
  simp only [get_memory_limited_raster_chunks]
  norm_num
  exact get_raster_chunks_whole 100 100 (by decide) (by decide)

/-- C6 amended: get_memory_limited_raster_chunks fails with the ValueError
— and so produces no rectangle — whenever nRasters * bytesPerPixel ≤ 0,
or width ≤ 0, or height ≤ 0, or memoryLimitMB ≤ 0, or the derived square
chunk size floor(sqrt(maxPixels)) is 0. -/
theorem C6_amended_invalid_arguments (n w h lim bpp : Int)
    (hbad : n * bpp ≤ 0 ∨ w ≤ 0 ∨ h ≤ 0 ∨ lim ≤ 0 ∨
      Int.sqrt ⌊(lim : ℚ) / ((n : ℚ) * (bpp : ℚ) / 1000000)⌋ = 0) :
    get_memory_limited_raster_chunks n w h lim bpp = .error .valueError := by
  simp only [get_memory_limited_raster_chunks]
  split_ifs with hd hgt hneg
  · rfl
  · push_neg at hd
    have hnbpp : 0 < n * bpp := by
      rcases div_pos_iff.mp hd with ⟨ha, -⟩ | ⟨-, hb⟩
      · exact_mod_cast ha
      · norm_num at hb
    have hguard : w ≤ 0 ∨ h ≤ 0 ∨ w ≤ 0 ∨ h ≤ 0 := by
      rcases hbad with h1 | h2 | h3 | h4 | h5
      · omega
      · exact Or.inl h2
      · exact Or.inr (Or.inl h3)
      · have hmple : (lim : ℚ) / ((n : ℚ) * (bpp : ℚ) / 1000000) ≤ 0 :=
          div_nonpos_iff.mpr (Or.inr ⟨by exact_mod_cast h4, hd.le⟩)
        have hwhneg : (w : ℚ) * (h : ℚ) < 0 := lt_of_lt_of_le hgt hmple
        have hwhint : w * h < 0 := by exact_mod_cast hwhneg
        by_contra hguard
        push_neg at hguard
        obtain ⟨hw1, hh1, -⟩ := hguard
        have := mul_pos hw1 hh1
        omega
      · by_cases hwp : 0 < w
        · by_cases hhp : 0 < h
          · exfalso
            have hwh1 : (1 : Int) ≤ w * h := by
              calc (1 : Int) = 1 * 1 := by ring
                _ ≤ w * h := mul_le_mul hwp hhp (by omega) (by omega)
            have hq1 : (1 : ℚ) ≤ (w : ℚ) * (h : ℚ) := by exact_mod_cast hwh1
            have hmp1 : (1 : ℚ) ≤ (lim : ℚ) / ((n : ℚ) * (bpp : ℚ) / 1000000) :=
              le_trans hq1 hgt.le
            have hfl : (1 : Int) ≤ ⌊(lim : ℚ) / ((n : ℚ) * (bpp : ℚ) / 1000000)⌋ :=
              Int.le_floor.mpr (by exact_mod_cast hmp1)
            have hsq := int_sqrt_one_le _ hfl
            omega
          · exact Or.inr (Or.inl (by omega))
        · exact Or.inl (by omega)
    rw [get_raster_chunks, if_pos hguard]
  · rfl
  · push_neg at hd
    have hnbpp : 0 < n * bpp := by
      rcases div_pos_iff.mp hd with ⟨ha, -⟩ | ⟨-, hb⟩
      · exact_mod_cast ha
      · norm_num at hb
    have hguard : w ≤ 0 ∨ h ≤ 0 ∨
        Int.sqrt ⌊(lim : ℚ) / ((n : ℚ) * (bpp : ℚ) / 1000000)⌋ ≤ 0 ∨
        Int.sqrt ⌊(lim : ℚ) / ((n : ℚ) * (bpp : ℚ) / 1000000)⌋ ≤ 0 := by
      rcases hbad with h1 | h2 | h3 | h4 | h5
      · omega
      · exact Or.inl h2
      · exact Or.inr (Or.inl h3)
      · have hmple : (lim : ℚ) / ((n : ℚ) * (bpp : ℚ) / 1000000) ≤ 0 :=
          div_nonpos_iff.mpr (Or.inr ⟨by exact_mod_cast h4, hd.le⟩)
        have hmp0 : (lim : ℚ) / ((n : ℚ) * (bpp : ℚ) / 1000000) = 0 :=
          le_antisymm hmple (not_lt.mp hneg)
        have hs0 : Int.sqrt ⌊(lim : ℚ) / ((n : ℚ) * (bpp : ℚ) / 1000000)⌋ = 0 := by
          rw [hmp0]
          simp [Int.sqrt]
        exact Or.inr (Or.inr (Or.inl hs0.le))
      · exact Or.inr (Or.inr (Or.inl h5.le))
    rw [get_raster_chunks, if_pos hguard]

/-- Witness for the amended C6 at the concrete input nRasters = 0,
width = 5, height = 5, memoryLimitMB = 10, bytesPerPixel = 4. -/
theorem C6_amended_invalid_arguments_witness :
    get_memory_limited_raster_chunks 0 5 5 10 4 = .error .valueError :=
  C6_amended_invalid_arguments 0 5 5 10 4 (Or.inl (by decide))
